import Mathlib

/-
Verification of the computer-vision pipeline of this repository
(src/cv/template_matcher.py and src/cv/ui_detector.py).

The OpenCV primitives (cv2.matchTemplate, cv2.findContours, cv2.boundingRect,
cv2.imdecode, cv2.imread, base64.b64decode, ...) are external library calls;
they are modelled as oracle functions supplied in an environment record, while
every line of the repository's own Python logic (filtering, thresholding,
non-maximum suppression, classification, merging, deduplication, sorting,
truncation, state handling) is translated directly.  Machine floats are
modelled by exact rationals; Python's round(x, n) (banker's rounding on the
scaled value) is modelled exactly by halfEven below.
-/

/-! ### Python rounding -/

/-- Round a rational to the nearest integer, ties to even
(the behaviour of Python's built-in round). -/
def halfEven (q : ℚ) : ℤ :=
  if q - ⌊q⌋ < 1/2 then ⌊q⌋
  else if (1:ℚ)/2 < q - ⌊q⌋ then ⌊q⌋ + 1
  else if ⌊q⌋ % 2 = 0 then ⌊q⌋ else ⌊q⌋ + 1

/-- Python's round(x, 3). -/
def round3 (q : ℚ) : ℚ := (halfEven (q * 1000) : ℚ) / 1000

/-- Python's round(x, 2). -/
def round2 (q : ℚ) : ℚ := (halfEven (q * 100) : ℚ) / 100

/-! ### Boxes and overlap geometry -/

/-- The geometric view shared by MatchCandidate and UIElement records. -/
structure Box where
  x : ℕ
  y : ℕ
  w : ℕ
  h : ℕ
deriving DecidableEq

/-- TemplateMatcher._calculate_iou: intersection-over-union of two boxes. -/
def calculateIoU (b1 b2 : Box) : ℚ :=
  if min ((b1.x : ℤ) + b1.w) ((b2.x : ℤ) + b2.w) < max (b1.x : ℤ) (b2.x : ℤ) ∨
     min ((b1.y : ℤ) + b1.h) ((b2.y : ℤ) + b2.h) < max (b1.y : ℤ) (b2.y : ℤ) then 0
  else
    if 0 < (b1.w : ℤ) * b1.h + (b2.w : ℤ) * b2.h -
        (min ((b1.x : ℤ) + b1.w) ((b2.x : ℤ) + b2.w) - max (b1.x : ℤ) (b2.x : ℤ)) *
        (min ((b1.y : ℤ) + b1.h) ((b2.y : ℤ) + b2.h) - max (b1.y : ℤ) (b2.y : ℤ)) then
      (((min ((b1.x : ℤ) + b1.w) ((b2.x : ℤ) + b2.w) - max (b1.x : ℤ) (b2.x : ℤ)) *
        (min ((b1.y : ℤ) + b1.h) ((b2.y : ℤ) + b2.h) - max (b1.y : ℤ) (b2.y : ℤ)) : ℤ) : ℚ) /
      (((b1.w : ℤ) * b1.h + (b2.w : ℤ) * b2.h -
        (min ((b1.x : ℤ) + b1.w) ((b2.x : ℤ) + b2.w) - max (b1.x : ℤ) (b2.x : ℤ)) *
        (min ((b1.y : ℤ) + b1.h) ((b2.y : ℤ) + b2.h) - max (b1.y : ℤ) (b2.y : ℤ)) : ℤ) : ℚ)
    else 0

/-- The clamped per-axis overlap product `max(0,...) * max(0,...)` used by the
ui_detector overlap checks. -/
def overlapArea (b1 b2 : Box) : ℤ :=
  max 0 (min ((b1.x : ℤ) + b1.w) ((b2.x : ℤ) + b2.w) - max (b1.x : ℤ) (b2.x : ℤ)) *
  max 0 (min ((b1.y : ℤ) + b1.h) ((b2.y : ℤ) + b2.h) - max (b1.y : ℤ) (b2.y : ℤ))

/-! ### Image loading (shared, identical in both source files) -/

/-- An input image string is modelled by its character list. -/
abbrev ImageData := List Char

/-- A decoded pixel buffer, abstracted to its shape
(shape[0] = height, shape[1] = width). -/
structure Img where
  H : ℕ
  W : ℕ
deriving DecidableEq

/-- The external decoding collaborators of _load_image.
`b64decode` returns none when base64.b64decode raises (invalid padding);
`imdecode` returns none when cv2.imdecode returns None (bytes that are not a
valid image; it does not raise); `imread` returns none when cv2.imread
returns None (unreadable path; it does not raise). -/
structure LoadEnv where
  b64decode : ImageData → Option (List ℕ)
  imdecode : List ℕ → Option Img
  imread : ImageData → Option Img

/-- The marker tested by image_data.startswith('data:image'). -/
def dataImageMarker : ImageData := ['d', 'a', 't', 'a', ':', 'i', 'm', 'a', 'g', 'e']

/-- Everything after the first comma — image_data.split(',', 1)[1];
none when there is no comma (the IndexError case). -/
def dropToComma : ImageData → Option ImageData
  | [] => none
  | c :: rest => if c = ',' then some rest else dropToComma rest

/-- The payload taken into base64 decoding; none = an exception inside the
try-block before decoding (IndexError on a comma-less data URL). -/
def dataUrlStrip (s : ImageData) : Option ImageData :=
  if dataImageMarker.isPrefixOf s then dropToComma s else some s

/-- The whole base64 branch of _load_image.  `some r` means the try-block ran
to completion with result r (r = none when cv2.imdecode returned None);
`none` means an exception was raised inside the try-block. -/
def b64Attempt (env : LoadEnv) (s : ImageData) : Option (Option Img) :=
  match dataUrlStrip s with
  | none => none
  | some payload =>
    match env.b64decode payload with
    | none => none
    | some bytes => some (env.imdecode bytes)

/-- _load_image (identical in TemplateMatcher and UIDetector): try the base64 branch;
only when it raises, fall back to cv2.imread on the input as a path. -/
def loadImage (env : LoadEnv) (s : ImageData) : Option Img :=
  match b64Attempt env s with
  | some r => r
  | none => env.imread s

/-! ### Template matcher -/

inductive TMMethod where
  | ccoeff
  | ccorr
  | sqdiff
deriving DecidableEq

/-- The confidence of a raw matchTemplate score: SQDIFF scores are inverted
(1 - score), the other methods use the score directly. -/
def rawConf (m : TMMethod) (s : ℚ) : ℚ :=
  match m with
  | .sqdiff => 1 - s
  | _ => s

/-- The per-position keep test of _match_at_scale:
`result <= 1 - threshold` for SQDIFF, `result >= threshold` otherwise. -/
def passesThr (m : TMMethod) (thr s : ℚ) : Bool :=
  match m with
  | .sqdiff => decide (s ≤ 1 - thr)
  | _ => decide (thr ≤ s)

/-- A MatchCandidate as produced by _match_at_scale. -/
structure MatchCand where
  x : ℕ
  y : ℕ
  width : ℕ
  height : ℕ
  centerX : ℕ
  centerY : ℕ
  confidence : ℚ
  scale : ℚ
deriving DecidableEq

def MatchCand.box (m : MatchCand) : Box := ⟨m.x, m.y, m.width, m.height⟩

/-- The match dict built for a kept position. -/
def mkMatch (x y nw nh : ℕ) (conf scale : ℚ) : MatchCand :=
  ⟨x, y, nw, nh, x + nw / 2, y + nh / 2, conf, scale⟩

/-- The sliding-window positions of a matchTemplate result of grid size
gw × gh, in numpy row-major order (y outer, x inner). -/
def positions (gw gh : ℕ) : List (ℕ × ℕ) :=
  (List.range gh).flatMap fun y => (List.range gw).map fun x => (x, y)

/-- The external scoring collaborator: cv2.matchTemplate's score at window
position (x, y) for the template resized to nw × nh, under a given method. -/
structure TMEnv where
  loadEnv : LoadEnv
  score : TMMethod → ℕ → ℕ → ℕ → ℕ → ℚ

/-- The loop body of _match_at_scale after resizing: threshold the score grid
and emit one MatchCandidate per kept position, confidence rounded to 3
decimals and scale rounded to 2. -/
def candRecords (env : TMEnv) (method : TMMethod) (thr : ℚ) (W H nw nh : ℕ)
    (scale : ℚ) : List MatchCand :=
  (positions (W - nw + 1) (H - nh + 1)).filterMap fun p =>
    if passesThr method thr (env.score method nw nh p.1 p.2) then
      some (mkMatch p.1 p.2 nw nh
        (round3 (rawConf method (env.score method nw nh p.1 p.2))) (round2 scale))
    else none

/-- _match_at_scale: resize the template (dimensions truncated to int), skip
the scale when a resized dimension is ≤ 0 or exceeds the screenshot, then
threshold the score grid. -/
def matchAtScale (env : TMEnv) (method : TMMethod) (thr : ℚ) (W H tw th : ℕ)
    (scale : ℚ) : List MatchCand :=
  if ⌊(tw : ℚ) * scale⌋ ≤ 0 ∨ ⌊(th : ℚ) * scale⌋ ≤ 0 then []
  else if (W : ℤ) < ⌊(tw : ℚ) * scale⌋ ∨ (H : ℤ) < ⌊(th : ℚ) * scale⌋ then []
  else candRecords env method thr W H (⌊(tw : ℚ) * scale⌋).toNat (⌊(th : ℚ) * scale⌋).toNat scale

/-- Stable insertion into a list kept in descending key order: the new element
goes in front of the first element whose key is ≤ its own. -/
def insertByDesc (key : α → ℚ) (x : α) : List α → List α
  | [] => [x]
  | y :: l => if key y ≤ key x then x :: y :: l else y :: insertByDesc key x l

/-- A stable sort by descending key, extensionally equal to Python's
list.sort(key=..., reverse=True) (both are stable). -/
def sortByDesc (key : α → ℚ) : List α → List α
  | [] => []
  | x :: l => insertByDesc key x (sortByDesc key l)

/-- The shared greedy keep-unless-conflicting loop skeleton of
_non_max_suppression and _remove_duplicate_elements: walk the list, keep an
element unless it conflicts with an already kept one. -/
def greedyKeep (conflict : α → α → Bool) (kept : List α) : List α → List α
  | [] => kept
  | e :: rest =>
    if kept.any fun k => conflict e k then greedyKeep conflict kept rest
    else greedyKeep conflict (kept ++ [e]) rest

/-- The suppression test of _non_max_suppression: IoU above the overlap
threshold. -/
def nmsConflict (ovThr : ℚ) (m k : MatchCand) : Bool :=
  decide (ovThr < calculateIoU m.box k.box)

/-- _non_max_suppression: sort by confidence descending, then greedily keep
non-overlapping matches. -/
def nonMaxSuppression (ovThr : ℚ) (ms : List MatchCand) : List MatchCand :=
  if ms.isEmpty then []
  else greedyKeep (nmsConflict ovThr) [] (sortByDesc (fun m => m.confidence) ms)

/-- The fixed scale set of find_matches. -/
def scalesList : List ℚ := [1/2, 3/4, 1, 5/4, 3/2]

/-- find_matches after both images loaded: per-scale matching, concatenation,
non-maximum suppression at 0.3, final sort by confidence descending. -/
def findMatchesCore (env : TMEnv) (method : TMMethod) (thr : ℚ) (W H tw th : ℕ)
    (multiScale : Bool) : List MatchCand :=
  sortByDesc (fun m => m.confidence)
    (nonMaxSuppression (3/10)
      (if multiScale then scalesList.flatMap (matchAtScale env method thr W H tw th)
       else matchAtScale env method thr W H tw th 1))

/-- TemplateMatcher.find_matches: load both images (empty result when either
fails), then match. -/
def findMatches (env : TMEnv) (sd td : ImageData) (thr : ℚ) (method : TMMethod)
    (multiScale : Bool) : List MatchCand :=
  match loadImage env.loadEnv sd, loadImage env.loadEnv td with
  | some sc, some tp => findMatchesCore env method thr sc.W sc.H tp.W tp.H multiScale
  | _, _ => []

/-! ### UI detector -/

/-- A UIElement record. -/
structure UIElement where
  x : ℕ
  y : ℕ
  width : ℕ
  height : ℕ
  centerX : ℕ
  centerY : ℕ
  area : ℕ
  type : String
  confidence : ℚ
  vertices : ℕ
deriving DecidableEq

def UIElement.box (e : UIElement) : Box := ⟨e.x, e.y, e.width, e.height⟩

/-- An edge contour, abstracted to the quantities the detector reads from it:
cv2.boundingRect, cv2.contourArea, cv2.arcLength, and the vertex count of the
cv2.approxPolyDP simplification at tolerance 2% of the perimeter. -/
structure Contour where
  x : ℕ
  y : ℕ
  w : ℕ
  h : ℕ
  contourArea : ℚ
  perimeter : ℚ
  vertices : ℕ
deriving DecidableEq

/-- A color-mask contour, abstracted to its bounding rectangle, whether its
HSV region-of-interest slice is empty, and the region's mean saturation,
value and hue. -/
structure ColorContour where
  x : ℕ
  y : ℕ
  w : ℕ
  h : ℕ
  roiEmpty : Bool
  meanS : ℚ
  meanV : ℚ
  meanH : ℚ
deriving DecidableEq

/-- The mutable detector configuration: min_area (an int) and max_area
(None until resolved, then a float). -/
structure DetState where
  minArea : ℤ
  maxArea : Option ℚ
deriving DecidableEq

/-- The external collaborators of detect_ui_elements: the image loader plus
the contour lists produced by the edge chain (Canny + dilate + findContours)
and by the color-mask chain. -/
structure DetEnv where
  loadEnv : LoadEnv
  edgeContours : List Contour
  colorContours : List ColorContour

/-- The double-precision value of np.pi. -/
def npPi : ℚ := 884279719003555 / 281474976710656

/-- The aspect ratio w / h, computed as 0 when h = 0 (the guarded division of
_analyze_contour and _detect_color_regions). -/
def aspectOf (w h : ℕ) : ℚ := if 0 < h then (w : ℚ) / (h : ℚ) else 0

/-- Circularity 4·π·contourArea / perimeter², computed as 0 when the
perimeter is 0 (the guarded division of _analyze_contour). -/
def circularityOf (c : Contour) : ℚ :=
  if 0 < c.perimeter then 4 * npPi * c.contourArea / c.perimeter ^ 2 else 0

/-- UIDetector._analyze_contour: area and aspect-ratio filters, then the
top-down shape decision table. -/
def analyzeContour (minArea : ℤ) (maxArea : ℚ) (c : Contour) : Option UIElement :=
  if (c.w * c.h : ℤ) < minArea ∨ maxArea < (c.w * c.h : ℕ) then none
  else if aspectOf c.w c.h < 1/10 ∨ 10 < aspectOf c.w c.h then none
  else some
    { x := c.x, y := c.y, width := c.w, height := c.h,
      centerX := c.x + c.w / 2, centerY := c.y + c.h / 2,
      area := c.w * c.h,
      type :=
        if c.vertices = 4 then "rectangle"
        else if 7/10 < circularityOf c then "circle"
        else if c.vertices < 10 then "polygon"
        else "unknown",
      confidence := round2
        (if c.vertices = 4 then 8/10
         else if 7/10 < circularityOf c then 9/10
         else if c.vertices < 10 then 6/10
         else 1/2),
      vertices := c.vertices }

/-- UIDetector._get_color_name_from_hue. -/
def colorNameFromHue (hue : ℚ) : String :=
  if hue < 10 ∨ 170 < hue then "red"
  else if hue < 20 then "orange"
  else if hue < 30 then "yellow"
  else if hue < 75 then "green"
  else if hue < 100 then "cyan"
  else if hue < 130 then "blue"
  else if hue < 150 then "purple"
  else "pink"

/-- The per-contour body of UIDetector._detect_color_regions: relaxed area
and aspect filters, empty-ROI guard, mean saturation/value re-check, then a
color_button element with hardcoded vertices 4 and a capped confidence. -/
def analyzeColorContour (minArea : ℤ) (maxArea : ℚ) (c : ColorContour) :
    Option UIElement :=
  if ((c.w * c.h : ℕ) : ℚ) < max 200 ((minArea : ℚ) * (1/2)) ∨ maxArea < (c.w * c.h : ℕ) then none
  else if aspectOf c.w c.h < 1/20 ∨ 15 < aspectOf c.w c.h then none
  else if c.roiEmpty then none
  else if c.meanS < 50 ∨ c.meanV < 40 then none
  else some
    { x := c.x, y := c.y, width := c.w, height := c.h,
      centerX := c.x + c.w / 2, centerY := c.y + c.h / 2,
      area := c.w * c.h,
      type := "color_button_" ++ colorNameFromHue c.meanH,
      confidence := round2 (min (19/20) (7/10 + c.meanS / 255 * (3/20) + c.meanV / 255 * (1/10))),
      vertices := 4 }

/-- UIDetector._detect_color_regions over the mask's contours. -/
def detectColorRegions (minArea : ℤ) (maxArea : ℚ) (cs : List ColorContour) :
    List UIElement :=
  cs.filterMap (analyzeColorContour minArea maxArea)

/-- The overlap test of the color-over-edge preference loop: overlap area
above 50% of the smaller element's area. -/
def colorOverlapPred (c e : UIElement) : Bool :=
  decide ((min c.area e.area : ℕ) * (1/2 : ℚ) < (overlapArea c.box e.box : ℚ))

/-- The color-over-edge preference loop of detect_ui_elements: every color
element is kept, and for each one the first significantly overlapping edge
element still in the working list is removed (list.remove removes the first
equal element, which is exactly the first matching one since the test depends
only on the element's value). -/
def preferColor (colors edges : List UIElement) : List UIElement × List UIElement :=
  colors.foldl (fun acc c => (acc.1 ++ [c], acc.2.eraseP (colorOverlapPred c))) ([], edges)

/-- The nesting test of _remove_nested_elements: elem1 fully inside elem2's
box and significantly (< 90%) smaller. -/
def nestedIn (a b : UIElement) : Bool :=
  decide (b.x ≤ a.x ∧ b.y ≤ a.y ∧ a.x + a.width ≤ b.x + b.width ∧
    a.y + a.height ≤ b.y + b.height ∧ (a.area : ℚ) < (b.area : ℚ) * (9/10))

/-- UIDetector._remove_nested_elements.  The source skips the comparison of an
element with itself (i == j); since no element satisfies the nesting test
against itself (its area is not below 90% of itself), testing against the
whole list is extensionally identical. -/
def removeNested (es : List UIElement) : List UIElement :=
  es.filter fun a => !(es.any fun b => nestedIn a b)

/-- The duplicate test of _remove_duplicate_elements: overlap area above 70%
of the smaller element's area. -/
def dupPred (a b : UIElement) : Bool :=
  decide ((min a.area b.area : ℕ) * (7/10 : ℚ) < (overlapArea a.box b.box : ℚ))

/-- UIDetector._remove_duplicate_elements: keep an element unless it
significantly overlaps an already kept one. -/
def removeDuplicates (es : List UIElement) : List UIElement :=
  greedyKeep dupPred [] es

/-- The post-merge stage of detect_ui_elements: nesting removal, duplicate
removal, sort by area descending, truncation to the top 100. -/
def mergePost (es : List UIElement) : List UIElement :=
  (sortByDesc (fun e => (e.area : ℚ)) (removeDuplicates (removeNested es))).take 100

/-- The max-area value a call works with (lines 42-45 of ui_detector.py):
the stored self.max_area when it is not None, otherwise 50% of the current
image's pixel count. -/
def detMaxArea (st : DetState) (img : Img) : ℚ :=
  match st.maxArea with
  | some m => m
  | none => ((img.H * img.W : ℕ) : ℚ) * (1/2)

/-- UIDetector.detect_ui_elements.  Returns the element list together with
the detector state after the call: when max_area is None it is resolved to
50% of the loaded image's pixel count and stored back on self. -/
def detectUIElements (env : DetEnv) (st : DetState) (imageData : ImageData) :
    List UIElement × DetState :=
  match loadImage env.loadEnv imageData with
  | none => ([], st)
  | some img =>
    let maxArea : ℚ := detMaxArea st img
    let edgeElements := env.edgeContours.filterMap (analyzeContour st.minArea maxArea)
    let colorElements := detectColorRegions st.minArea maxArea env.colorContours
    let pc := preferColor colorElements edgeElements
    (mergePost (pc.1 ++ pc.2), { st with maxArea := some maxArea })

/-! ### Concrete instances used in the claim analysis -/

/-- Loader for the confidence-rounding counterexample: both inputs load as
1×1 images through the path fallback. -/
def c1LoadEnv : LoadEnv :=
  { b64decode := fun _ => none
    imdecode := fun _ => none
    imread := fun s =>
      if s = ['s'] then some ⟨1, 1⟩ else if s = ['t'] then some ⟨1, 1⟩ else none }

/-- Matcher environment whose single window position scores 0.7004. -/
def c1Env : TMEnv :=
  { loadEnv := c1LoadEnv
    score := fun _ _ _ _ _ => 7004/10000 }

/-- Loader for the C1 witness run: every input loads as a 5×5 image. -/
def w1LoadEnv : LoadEnv :=
  { b64decode := fun _ => none
    imdecode := fun _ => none
    imread := fun _ => some ⟨5, 5⟩ }

/-- Matcher environment whose single window position scores 0.8. -/
def w1Env : TMEnv :=
  { loadEnv := w1LoadEnv
    score := fun _ _ _ _ _ => 4/5 }

/-- The unique match produced by w1Env at threshold 0.7, scale 1. -/
def w1M : MatchCand := ⟨0, 0, 5, 5, 2, 2, 4/5, 1⟩

/-- Loader where the input base64-decodes, the bytes are not a valid image
(cv2.imdecode returns None, raising nothing), and the same input is a
perfectly readable path. -/
def c3LoadEnv : LoadEnv :=
  { b64decode := fun s => if s = ['a', 'b'] then some [1, 2, 3] else none
    imdecode := fun _ => none
    imread := fun s => if s = ['a', 'b'] then some ⟨8, 8⟩ else none }

/-- Loader for the C3 witness run: base64 decoding always raises, and only
the path "p" is readable. -/
def w3LoadEnv : LoadEnv :=
  { b64decode := fun _ => none
    imdecode := fun _ => none
    imread := fun s => if s = ['p'] then some ⟨3, 4⟩ else none }

def w3TMEnv : TMEnv :=
  { loadEnv := w3LoadEnv
    score := fun _ _ _ _ _ => 0 }

def w3DetEnv : DetEnv :=
  { loadEnv := w3LoadEnv
    edgeContours := []
    colorContours := [] }

/-- First detection call of the statefulness analysis: a 100×100 image with
no contours. -/
def c4EnvA : DetEnv :=
  { loadEnv :=
      { b64decode := fun _ => none
        imdecode := fun _ => none
        imread := fun s => if s = ['a'] then some ⟨100, 100⟩ else none }
    edgeContours := []
    colorContours := [] }

/-- A 100×150 four-vertex contour: area 15000, between 50% of a 100×100
image (5000) and 50% of a 200×200 image (20000). -/
def c4Contour : Contour := ⟨0, 0, 100, 150, 14000, 500, 4⟩

/-- Second detection call of the statefulness analysis: a 200×200 image
containing c4Contour. -/
def c4EnvB : DetEnv :=
  { loadEnv :=
      { b64decode := fun _ => none
        imdecode := fun _ => none
        imread := fun s => if s = ['b'] then some ⟨200, 200⟩ else none }
    edgeContours := [c4Contour]
    colorContours := [] }

/-- Loader for the threshold-monotonicity counterexample: a 15-wide,
11-high screenshot and a 10×10 template. -/
def c5LoadEnv : LoadEnv :=
  { b64decode := fun _ => none
    imdecode := fun _ => none
    imread := fun s =>
      if s = ['s'] then some ⟨11, 15⟩ else if s = ['t'] then some ⟨10, 10⟩ else none }

/-- Score grid with three hot positions: (0,0) at 0.8996 (rounds to 0.9 but
fails a 0.9 threshold), (5,0) at 0.9001 and (0,1) at 0.9002 (both pass). -/
def c5Env : TMEnv :=
  { loadEnv := c5LoadEnv
    score := fun _ _ _ x y =>
      if x = 0 ∧ y = 0 then 8996/10000
      else if x = 5 ∧ y = 0 then 9001/10000
      else if x = 0 ∧ y = 1 then 9002/10000
      else 0 }

/-- Environment for the C5 witness run: every score is 0, which rounding
leaves unchanged. -/
def w5Env : TMEnv :=
  { loadEnv :=
      { b64decode := fun _ => none
        imdecode := fun _ => none
        imread := fun _ => some ⟨4, 4⟩ }
    score := fun _ _ _ _ _ => 0 }

/-- A 30×30 square contour with 4 polygon vertices. -/
def w7Contour : Contour := ⟨0, 0, 30, 30, 900, 120, 4⟩

/-- Detection environment producing exactly one element from w7Contour. -/
def w7Env : DetEnv :=
  { loadEnv :=
      { b64decode := fun _ => none
        imdecode := fun _ => none
        imread := fun _ => some ⟨100, 100⟩ }
    edgeContours := [w7Contour]
    colorContours := [] }

/-- The element detect_ui_elements produces from w7Contour. -/
def w7Elem : UIElement := ⟨0, 0, 30, 30, 15, 15, 900, "rectangle", 4/5, 4⟩

/-- The element a fresh detector produces from c4Contour on the 200×200
image. -/
def c4Elem : UIElement := ⟨0, 0, 100, 150, 50, 75, 15000, "rectangle", 4/5, 4⟩

/-- A 40×20 contour with exactly 4 approximated vertices. -/
def w8Contour : Contour := ⟨2, 3, 40, 20, 760, 118, 4⟩

/-- The element _analyze_contour produces from w8Contour. -/
def w8Elem : UIElement := ⟨2, 3, 40, 20, 22, 13, 800, "rectangle", 4/5, 4⟩

/-- A single-point contour: 1×1 bounding box, zero contour area, zero
perimeter, one approximated vertex. -/
def c9Contour : Contour := ⟨5, 5, 1, 1, 0, 0, 1⟩

/-- The element _analyze_contour produces from c9Contour when min_area ≤ 1:
a polygon with confidence 0.6, despite the zero perimeter. -/
def c9Elem : UIElement := ⟨5, 5, 1, 1, 5, 5, 1, "polygon", 3/5, 1⟩

/-- A zero-height contour. -/
def w9FlatContour : Contour := ⟨0, 0, 5, 0, 0, 0, 4⟩

/-- Another single-point, zero-perimeter contour. -/
def w9PtContour : Contour := ⟨7, 9, 1, 1, 0, 0, 1⟩

/-- The element _analyze_contour produces from w9PtContour when
min_area ≤ 1. -/
def w9PtElem : UIElement := ⟨7, 9, 1, 1, 7, 9, 1, "polygon", 3/5, 1⟩

/-- A saturated, bright 20×20 color region with mean hue in the green
bucket. -/
def w10CC : ColorContour := ⟨0, 0, 20, 20, false, 100, 100, 60⟩

/-- The element _detect_color_regions produces from w10CC. -/
def w10Elem : UIElement := ⟨0, 0, 20, 20, 10, 10, 400, "color_button_green", 4/5, 4⟩

/-! ### Facts about the rounding model -/

theorem floor_le_halfEven (q : ℚ) : ⌊q⌋ ≤ halfEven q := by
  unfold halfEven
  split_ifs <;> omega

theorem le_halfEven (q : ℚ) : q - 1/2 ≤ (halfEven q : ℚ) := by
  unfold halfEven
  have h1 := Int.floor_le q
  have h2 := Int.lt_floor_add_one q
  split_ifs <;> push_cast <;> linarith

theorem halfEven_le (q : ℚ) : (halfEven q : ℚ) ≤ q + 1/2 := by
  unfold halfEven
  have h1 := Int.floor_le q
  have h2 := Int.lt_floor_add_one q
  split_ifs <;> push_cast <;> linarith

theorem halfEven_le_ceil (q : ℚ) : halfEven q ≤ ⌈q⌉ := by
  unfold halfEven
  have hfc := Int.floor_le_ceil q
  split_ifs with h1 h2 h3
  · exact hfc
  · have : (⌊q⌋ : ℚ) < q := by linarith
    have := Int.lt_ceil.mpr this
    omega
  · exact hfc
  · have : (⌊q⌋ : ℚ) < q := by linarith
    have := Int.lt_ceil.mpr this
    omega

theorem round3_ge (q : ℚ) : q - 1/2000 ≤ round3 q := by
  unfold round3
  have h := le_halfEven (q * 1000)
  rw [le_div_iff₀ (by norm_num : (0:ℚ) < 1000)]
  linarith

theorem le_round2 (k : ℤ) (q : ℚ) (h : (k : ℚ) ≤ q * 100) : (k : ℚ) / 100 ≤ round2 q := by
  unfold round2
  have h1 : k ≤ ⌊q * 100⌋ := Int.le_floor.mpr h
  have h2 := floor_le_halfEven (q * 100)
  have h3 : (k : ℚ) ≤ (halfEven (q * 100) : ℚ) := by exact_mod_cast le_trans h1 h2
  exact (div_le_div_right (by norm_num : (0:ℚ) < 100)).mpr h3

theorem round2_le (k : ℤ) (q : ℚ) (h : q * 100 ≤ (k : ℚ)) : round2 q ≤ (k : ℚ) / 100 := by
  unfold round2
  have h1 : ⌈q * 100⌉ ≤ k := Int.ceil_le.mpr h
  have h2 := halfEven_le_ceil (q * 100)
  have h3 : (halfEven (q * 100) : ℚ) ≤ (k : ℚ) := by exact_mod_cast le_trans h2 h1
  exact (div_le_div_right (by norm_num : (0:ℚ) < 100)).mpr h3

/-! ### Facts about the stable sort -/

theorem insertByDesc_perm (key : α → ℚ) (x : α) (l : List α) :
    List.Perm (insertByDesc key x l) (x :: l) := by
  induction l with
  | nil => exact List.Perm.refl _
  | cons y l ih =>
    unfold insertByDesc
    split_ifs
    · exact List.Perm.refl _
    · exact (ih.cons y).trans (List.Perm.swap x y l)

theorem sortByDesc_perm (key : α → ℚ) (l : List α) : List.Perm (sortByDesc key l) l := by
  induction l with
  | nil => exact List.Perm.refl _
  | cons x l ih => exact (insertByDesc_perm key x (sortByDesc key l)).trans (ih.cons x)

theorem mem_sortByDesc {key : α → ℚ} {l : List α} {a : α} :
    a ∈ sortByDesc key l ↔ a ∈ l :=
  (sortByDesc_perm key l).mem_iff

theorem sortByDesc_length (key : α → ℚ) (l : List α) :
    (sortByDesc key l).length = l.length :=
  (sortByDesc_perm key l).length_eq

theorem insertByDesc_pairwise {key : α → ℚ} {l : List α} (x : α)
    (h : l.Pairwise fun a b => key b ≤ key a) :
    (insertByDesc key x l).Pairwise fun a b => key b ≤ key a := by
  induction l with
  | nil => simp [insertByDesc]
  | cons y l ih =>
    rw [List.pairwise_cons] at h
    obtain ⟨hy, hl⟩ := h
    unfold insertByDesc
    split_ifs with hxy
    · refine List.pairwise_cons.mpr ⟨?_, List.pairwise_cons.mpr ⟨hy, hl⟩⟩
      intro z hz
      rcases List.mem_cons.mp hz with rfl | hz
      · exact hxy
      · exact le_trans (hy z hz) hxy
    · refine List.pairwise_cons.mpr ⟨?_, ih hl⟩
      intro z hz
      rcases List.mem_cons.mp ((insertByDesc_perm key x l).mem_iff.mp hz) with rfl | h1
      · exact le_of_lt (lt_of_not_le hxy)
      · exact hy z h1

theorem sortByDesc_pairwise (key : α → ℚ) (l : List α) :
    (sortByDesc key l).Pairwise fun a b => key b ≤ key a := by
  induction l with
  | nil => simp [sortByDesc]
  | cons x l ih => exact insertByDesc_pairwise x ih

theorem sortByDesc_eq_self {key : α → ℚ} {l : List α}
    (h : l.Pairwise fun a b => key b ≤ key a) : sortByDesc key l = l := by
  induction l with
  | nil => rfl
  | cons x l ih =>
    rw [List.pairwise_cons] at h
    obtain ⟨hx, hl⟩ := h
    rw [sortByDesc, ih hl]
    cases l with
    | nil => rfl
    | cons y l' =>
      unfold insertByDesc
      rw [if_pos (hx y (List.mem_cons_self y l'))]

theorem insertByDesc_append_high {key : α → ℚ} {x : α} {A B : List α}
    (hB : ∀ b ∈ B, key b < key x) :
    insertByDesc key x (A ++ B) = insertByDesc key x A ++ B := by
  induction A with
  | nil =>
    cases B with
    | nil => rfl
    | cons b B' =>
      simp only [List.nil_append, insertByDesc]
      rw [if_pos (le_of_lt (hB b (List.mem_cons_self b B')))]
      rfl
  | cons a A' ih =>
    simp only [List.cons_append, insertByDesc, List.append_eq]
    split_ifs
    · simp
    · rw [ih]
      simp

theorem insertByDesc_append_low {key : α → ℚ} {x : α} {A B : List α}
    (hA : ∀ a ∈ A, key x < key a) :
    insertByDesc key x (A ++ B) = A ++ insertByDesc key x B := by
  induction A with
  | nil => rfl
  | cons a A' ih =>
    simp only [List.cons_append, insertByDesc, List.append_eq]
    rw [if_neg (not_le_of_lt (hA a (List.mem_cons_self a A'))),
      ih fun a' ha' => hA a' (List.mem_cons_of_mem a ha')]

theorem sortByDesc_split {key : α → ℚ} (p : α → Bool) (t : ℚ) {l : List α}
    (hp : ∀ x ∈ l, p x = true ↔ t ≤ key x) :
    sortByDesc key l =
      sortByDesc key (l.filter p) ++ sortByDesc key (l.filter fun a => !(p a)) := by
  induction l with
  | nil => rfl
  | cons x l ih =>
    have hp' : ∀ z ∈ l, p z = true ↔ t ≤ key z :=
      fun z hz => hp z (List.mem_cons_of_mem x hz)
    by_cases hx : p x = true
    · rw [List.filter_cons_of_pos hx, List.filter_cons_of_neg (by simp [hx]),
        sortByDesc, sortByDesc, ih hp']
      refine insertByDesc_append_high ?_
      intro b hb
      have hbmem := mem_sortByDesc.mp hb
      have hbl := List.mem_of_mem_filter hbmem
      have hbp : p b = false := by
        have := List.of_mem_filter hbmem
        simpa using this
      have hbt : ¬ t ≤ key b := fun hc => by simp [(hp' b hbl).mpr hc] at hbp
      exact lt_of_lt_of_le (lt_of_not_le hbt) ((hp x (List.mem_cons_self x l)).mp hx)
    · rw [List.filter_cons_of_neg (by simpa using hx), List.filter_cons_of_pos (by simpa using hx),
        sortByDesc, sortByDesc, ih hp']
      refine insertByDesc_append_low ?_
      intro a ha
      have hamem := mem_sortByDesc.mp ha
      have hal := List.mem_of_mem_filter hamem
      have hap : p a = true := List.of_mem_filter hamem
      have hat : t ≤ key a := (hp' a hal).mp hap
      have hxt : ¬ t ≤ key x := fun hc => hx ((hp x (List.mem_cons_self x l)).mpr hc)
      exact lt_of_lt_of_le (lt_of_not_le hxt) hat

/-! ### Facts about the greedy keep loop -/

theorem any_false_forall {p : α → Bool} {l : List α} (h : l.any p = false) :
    ∀ x ∈ l, p x = false := by
  intro x hx
  cases hpx : p x with
  | false => rfl
  | true => simp [List.any_eq_true] at h; exact absurd hpx (by simpa using h x hx)

theorem forall_any_false {p : α → Bool} {l : List α} (h : ∀ x ∈ l, p x = false) :
    l.any p = false := by
  cases ha : l.any p with
  | false => rfl
  | true =>
    obtain ⟨x, hx, hpx⟩ := List.any_eq_true.mp ha
    rw [h x hx] at hpx
    exact absurd hpx (by simp)

theorem greedyKeep_extends (c : α → α → Bool) (l : List α) :
    ∀ kept, ∃ ext, greedyKeep c kept l = kept ++ ext := by
  induction l with
  | nil => exact fun kept => ⟨[], by simp [greedyKeep]⟩
  | cons e rest ih =>
    intro kept
    unfold greedyKeep
    split_ifs
    · exact ih kept
    · obtain ⟨ext, hext⟩ := ih (kept ++ [e])
      exact ⟨e :: ext, by rw [hext]; simp⟩

theorem greedyKeep_length_le (c : α → α → Bool) (kept : List α) (l : List α) :
    kept.length ≤ (greedyKeep c kept l).length := by
  obtain ⟨ext, hext⟩ := greedyKeep_extends c l kept
  rw [hext]
  simp

theorem greedyKeep_cons (c : α → α → Bool) (kept : List α) (e : α) (rest : List α) :
    greedyKeep c kept (e :: rest) =
      if kept.any (fun k => c e k) then greedyKeep c kept rest
      else greedyKeep c (kept ++ [e]) rest := rfl

theorem greedyKeep_append (c : α → α → Bool) (A B : List α) :
    ∀ kept, greedyKeep c kept (A ++ B) = greedyKeep c (greedyKeep c kept A) B := by
  induction A with
  | nil => intro kept; rfl
  | cons e rest ih =>
    intro kept
    rw [List.cons_append, greedyKeep_cons, greedyKeep_cons]
    split_ifs
    · exact ih kept
    · exact ih (kept ++ [e])

theorem greedyKeep_mem (c : α → α → Bool) (l : List α) :
    ∀ kept a, a ∈ greedyKeep c kept l → a ∈ kept ∨ a ∈ l := by
  induction l with
  | nil => intro kept a ha; exact Or.inl ha
  | cons e rest ih =>
    intro kept a ha
    unfold greedyKeep at ha
    split_ifs at ha
    · rcases ih kept a ha with h | h
      · exact Or.inl h
      · exact Or.inr (List.mem_cons_of_mem e h)
    · rcases ih (kept ++ [e]) a ha with h | h
      · rcases List.mem_append.mp h with h1 | h1
        · exact Or.inl h1
        · exact Or.inr (List.mem_cons.mpr (Or.inl (List.mem_singleton.mp h1)))
      · exact Or.inr (List.mem_cons_of_mem e h)

theorem greedyKeep_pairwise (c : α → α → Bool) (hsym : ∀ a b, c a b = c b a)
    (l : List α) : ∀ kept, kept.Pairwise (fun a b => c a b = false) →
    (greedyKeep c kept l).Pairwise fun a b => c a b = false := by
  induction l with
  | nil => intro kept hk; exact hk
  | cons e rest ih =>
    intro kept hk
    unfold greedyKeep
    split_ifs with hc
    · exact ih kept hk
    · refine ih (kept ++ [e]) (List.pairwise_append.mpr ⟨hk, List.pairwise_singleton _ _, ?_⟩)
      intro a ha b hb
      rw [List.mem_singleton.mp hb, hsym]
      exact any_false_forall (by simpa using hc) a ha

theorem greedyKeep_eq_append (c : α → α → Bool) (l : List α) :
    ∀ kept, (∀ k ∈ kept, ∀ e ∈ l, c e k = false) →
    l.Pairwise (fun a b => c b a = false) → greedyKeep c kept l = kept ++ l := by
  induction l with
  | nil => intro kept _ _; simp [greedyKeep]
  | cons e rest ih =>
    intro kept hk hp
    rw [List.pairwise_cons] at hp
    obtain ⟨he, hrest⟩ := hp
    unfold greedyKeep
    rw [if_neg (by
      rw [forall_any_false fun k hkk => hk k hkk e (List.mem_cons_self e rest)]
      simp)]
    rw [ih (kept ++ [e]) ?_ hrest]
    · simp
    · intro k hkk e' he'
      rcases List.mem_append.mp hkk with h1 | h1
      · exact hk k h1 e' (List.mem_cons_of_mem e he')
      · rw [List.mem_singleton.mp h1]
        exact he e' he'

/-! ### Facts about overlap geometry -/

theorem overlapArea_comm (b1 b2 : Box) : overlapArea b1 b2 = overlapArea b2 b1 := by
  unfold overlapArea
  rw [min_comm ((b1.x : ℤ) + b1.w), max_comm (b1.x : ℤ),
    min_comm ((b1.y : ℤ) + b1.h), max_comm (b1.y : ℤ)]

theorem calculateIoU_comm (b1 b2 : Box) : calculateIoU b1 b2 = calculateIoU b2 b1 := by
  unfold calculateIoU
  rw [min_comm ((b1.x : ℤ) + b1.w), max_comm (b1.x : ℤ),
    min_comm ((b1.y : ℤ) + b1.h), max_comm (b1.y : ℤ), add_comm ((b1.w : ℤ) * b1.h)]

theorem overlapArea_nonneg (b1 b2 : Box) : 0 ≤ overlapArea b1 b2 :=
  mul_nonneg (le_max_left 0 _) (le_max_left 0 _)

theorem calculateIoU_le (b1 b2 : Box) (q : ℚ) (hq : 0 ≤ q)
    (h : (overlapArea b1 b2 : ℚ) ≤ q * ((min (b1.w * b1.h) (b2.w * b2.h) : ℕ) : ℚ)) :
    calculateIoU b1 b2 ≤ q := by
  unfold calculateIoU
  split_ifs with hg hu
  · exact hq
  · push_neg at hg
    obtain ⟨hx, hy⟩ := hg
    set ix : ℤ := min ((b1.x : ℤ) + b1.w) ((b2.x : ℤ) + b2.w) - max (b1.x : ℤ) (b2.x : ℤ) with hixdef
    set iy : ℤ := min ((b1.y : ℤ) + b1.h) ((b2.y : ℤ) + b2.h) - max (b1.y : ℤ) (b2.y : ℤ) with hiydef
    have hix0 : 0 ≤ ix := sub_nonneg.mpr hx
    have hiy0 : 0 ≤ iy := sub_nonneg.mpr hy
    have hov : overlapArea b1 b2 = ix * iy := by
      unfold overlapArea
      rw [← hixdef, ← hiydef, max_eq_right hix0, max_eq_right hiy0]
    have hixw1 : ix ≤ (b1.w : ℤ) := by
      have h1 : min ((b1.x : ℤ) + b1.w) ((b2.x : ℤ) + b2.w) ≤ (b1.x : ℤ) + b1.w :=
        min_le_left _ _
      have h2 : (b1.x : ℤ) ≤ max (b1.x : ℤ) (b2.x : ℤ) := le_max_left _ _
      rw [hixdef]
      linarith
    have hixw2 : ix ≤ (b2.w : ℤ) := by
      have h1 : min ((b1.x : ℤ) + b1.w) ((b2.x : ℤ) + b2.w) ≤ (b2.x : ℤ) + b2.w :=
        min_le_right _ _
      have h2 : (b2.x : ℤ) ≤ max (b1.x : ℤ) (b2.x : ℤ) := le_max_right _ _
      rw [hixdef]
      linarith
    have hiyh1 : iy ≤ (b1.h : ℤ) := by
      have h1 : min ((b1.y : ℤ) + b1.h) ((b2.y : ℤ) + b2.h) ≤ (b1.y : ℤ) + b1.h :=
        min_le_left _ _
      have h2 : (b1.y : ℤ) ≤ max (b1.y : ℤ) (b2.y : ℤ) := le_max_left _ _
      rw [hiydef]
      linarith
    have hiyh2 : iy ≤ (b2.h : ℤ) := by
      have h1 : min ((b1.y : ℤ) + b1.h) ((b2.y : ℤ) + b2.h) ≤ (b2.y : ℤ) + b2.h :=
        min_le_right _ _
      have h2 : (b2.y : ℤ) ≤ max (b1.y : ℤ) (b2.y : ℤ) := le_max_right _ _
      rw [hiydef]
      linarith
    have hint1 : ix * iy ≤ (b1.w : ℤ) * b1.h := mul_le_mul hixw1 hiyh1 hiy0 (Int.ofNat_nonneg _)
    have hint2 : ix * iy ≤ (b2.w : ℤ) * b2.h := mul_le_mul hixw2 hiyh2 hiy0 (Int.ofNat_nonneg _)
    have hminu : ((min (b1.w * b1.h) (b2.w * b2.h) : ℕ) : ℤ) ≤
        (b1.w : ℤ) * b1.h + (b2.w : ℤ) * b2.h - ix * iy := by
      rcases min_cases (b1.w * b1.h) (b2.w * b2.h) with ⟨hm, _⟩ | ⟨hm, _⟩ <;> rw [hm] <;>
        push_cast <;> linarith
    rw [div_le_iff₀ (by exact_mod_cast hu)]
    rw [hov] at h
    refine le_trans h (mul_le_mul_of_nonneg_left ?_ hq)
    exact_mod_cast hminu
  · exact hq

theorem dupPred_comm (a b : UIElement) : dupPred a b = dupPred b a := by
  unfold dupPred
  rw [decide_eq_decide, overlapArea_comm, Nat.min_comm]

theorem nmsConflict_comm (q : ℚ) (m k : MatchCand) :
    nmsConflict q m k = nmsConflict q k m := by
  unfold nmsConflict
  rw [decide_eq_decide, calculateIoU_comm]

theorem iou_le_of_dupPred (a b : UIElement) (ha : a.area = a.width * a.height)
    (hb : b.area = b.width * b.height) (h : dupPred a b = false) :
    calculateIoU a.box b.box ≤ 7/10 := by
  refine calculateIoU_le _ _ _ (by norm_num) ?_
  have hle : ¬ ((min a.area b.area : ℕ) * (7/10 : ℚ) < (overlapArea a.box b.box : ℚ)) := by
    intro hc
    rw [show dupPred a b = true from by unfold dupPred; exact decide_eq_true hc] at h
    exact absurd h (by simp)
  push_neg at hle
  have hbox : a.box.w * a.box.h = a.width * a.height := rfl
  have hbox2 : b.box.w * b.box.h = b.width * b.height := rfl
  rw [hbox, hbox2, ← ha, ← hb, mul_comm]
  exact hle

/-! ### Structure of the detect_ui_elements pipeline -/

theorem preferColor_fold_fst (colors : List UIElement) :
    ∀ acc : List UIElement × List UIElement,
      (colors.foldl (fun acc c => (acc.1 ++ [c], acc.2.eraseP (colorOverlapPred c))) acc).1 =
        acc.1 ++ colors := by
  induction colors with
  | nil => intro acc; simp
  | cons c cs ih => intro acc; rw [List.foldl_cons, ih]; simp

theorem preferColor_fst (colors edges : List UIElement) :
    (preferColor colors edges).1 = colors := by
  unfold preferColor
  rw [preferColor_fold_fst]
  simp

theorem preferColor_fold_snd (colors : List UIElement) :
    ∀ acc : List UIElement × List UIElement,
      ((colors.foldl (fun acc c => (acc.1 ++ [c], acc.2.eraseP (colorOverlapPred c))) acc).2).Sublist
        acc.2 := by
  induction colors with
  | nil => intro acc; simp
  | cons c cs ih =>
    intro acc
    rw [List.foldl_cons]
    exact (ih _).trans (List.eraseP_sublist _)

theorem preferColor_snd (colors edges : List UIElement) :
    ((preferColor colors edges).2).Sublist edges :=
  preferColor_fold_snd colors ([], edges)

theorem mem_removeNested {es : List UIElement} {e : UIElement}
    (h : e ∈ removeNested es) : e ∈ es ∧ ∀ b ∈ es, nestedIn e b = false := by
  unfold removeNested at h
  obtain ⟨he, hp⟩ := List.mem_filter.mp h
  refine ⟨he, ?_⟩
  have : (es.any fun b => nestedIn e b) = false := by
    cases hh : es.any fun b => nestedIn e b
    · rfl
    · rw [hh] at hp; exact absurd hp (by simp)
  exact any_false_forall this

theorem mem_removeDuplicates {es : List UIElement} {e : UIElement}
    (h : e ∈ removeDuplicates es) : e ∈ es := by
  rcases greedyKeep_mem dupPred es [] e h with h1 | h1
  · exact absurd h1 (List.not_mem_nil e)
  · exact h1

theorem removeDuplicates_pairwise (es : List UIElement) :
    (removeDuplicates es).Pairwise fun a b => dupPred a b = false :=
  greedyKeep_pairwise dupPred dupPred_comm es [] List.Pairwise.nil

theorem mem_mergePost {es : List UIElement} {e : UIElement} (h : e ∈ mergePost es) :
    e ∈ removeDuplicates (removeNested es) := by
  unfold mergePost at h
  exact mem_sortByDesc.mp ((List.take_sublist _ _).subset h)

theorem mem_mergePost_orig {es : List UIElement} {e : UIElement} (h : e ∈ mergePost es) :
    e ∈ es :=
  (mem_removeNested (mem_removeDuplicates (mem_mergePost h))).1

theorem mergePost_pairwise (es : List UIElement) :
    (mergePost es).Pairwise fun a b => dupPred a b = false := by
  have h1 := removeDuplicates_pairwise (removeNested es)
  have h2 : (sortByDesc (fun e : UIElement => (e.area : ℚ))
      (removeDuplicates (removeNested es))).Pairwise fun a b => dupPred a b = false :=
    (List.Perm.pairwise_iff
      (fun {a b} hab => by rw [dupPred_comm]; exact hab) (sortByDesc_perm _ _)).mpr h1
  exact h2.sublist (List.take_sublist _ _)

/-! ### Inversion of the contour analyzers -/

theorem analyzeContour_some {mi : ℤ} {ma : ℚ} {c : Contour} {e : UIElement}
    (h : analyzeContour mi ma c = some e) :
    e.x = c.x ∧ e.y = c.y ∧ e.width = c.w ∧ e.height = c.h ∧
    e.area = c.w * c.h ∧ e.vertices = c.vertices := by
  unfold analyzeContour at h
  split_ifs at h
  all_goals try exact Option.noConfusion h
  all_goals rw [Option.some.injEq] at h
  all_goals subst h
  all_goals exact ⟨rfl, rfl, rfl, rfl, rfl, rfl⟩

theorem analyzeContour_type {mi : ℤ} {ma : ℚ} {c : Contour} {e : UIElement}
    (h : analyzeContour mi ma c = some e) :
    e.type = (if c.vertices = 4 then "rectangle"
      else if 7/10 < circularityOf c then "circle"
      else if c.vertices < 10 then "polygon" else "unknown") ∧
    e.confidence = round2 (if c.vertices = 4 then 8/10
      else if 7/10 < circularityOf c then 9/10
      else if c.vertices < 10 then 6/10 else 1/2) := by
  unfold analyzeContour at h
  split_ifs at h
  all_goals try exact Option.noConfusion h
  all_goals rw [Option.some.injEq] at h
  all_goals subst h
  all_goals constructor <;> split_ifs <;>
    first
    | rfl
    | omega
    | (exfalso; linarith)
    | simp_all

theorem analyzeColorContour_some {mi : ℤ} {ma : ℚ} {c : ColorContour} {e : UIElement}
    (h : analyzeColorContour mi ma c = some e) :
    e.width = c.w ∧ e.height = c.h ∧ e.area = c.w * c.h ∧ e.vertices = 4 ∧
    50 ≤ c.meanS ∧ 40 ≤ c.meanV ∧
    e.confidence =
      round2 (min (19/20) (7/10 + c.meanS / 255 * (3/20) + c.meanV / 255 * (1/10))) := by
  unfold analyzeColorContour at h
  split_ifs at h with h1 h2 h3 h4
  all_goals try exact Option.noConfusion h
  push_neg at h4
  rw [Option.some.injEq] at h
  subst h
  exact ⟨rfl, rfl, rfl, rfl, h4.1, h4.2, rfl⟩

theorem colorConf_bounds {s v : ℚ} (hs : 50 ≤ s) (hv : 40 ≤ v) :
    7/10 ≤ round2 (min (19/20) (7/10 + s / 255 * (3/20) + v / 255 * (1/10))) ∧
    round2 (min (19/20) (7/10 + s / 255 * (3/20) + v / 255 * (1/10))) ≤ 19/20 := by
  have hterm1 : 0 ≤ s / 255 * (3/20) :=
    mul_nonneg (div_nonneg (by linarith) (by norm_num)) (by norm_num)
  have hterm2 : 0 ≤ v / 255 * (1/10) :=
    mul_nonneg (div_nonneg (by linarith) (by norm_num)) (by norm_num)
  have hlo : 7/10 ≤ min (19/20) (7/10 + s / 255 * (3/20) + v / 255 * (1/10)) :=
    le_min (by norm_num) (by linarith)
  have hhi : min (19/20) (7/10 + s / 255 * (3/20) + v / 255 * (1/10)) ≤ 19/20 :=
    min_le_left _ _
  constructor
  · have h70 := le_round2 70 (min (19/20) (7/10 + s / 255 * (3/20) + v / 255 * (1/10)))
      (by push_cast; linarith)
    push_cast at h70
    linarith
  · have h95 := round2_le 95 (min (19/20) (7/10 + s / 255 * (3/20) + v / 255 * (1/10)))
      (by push_cast; linarith)
    push_cast at h95
    linarith

/-! ### Shape of a detect_ui_elements call -/

theorem detectUIElements_cases (env : DetEnv) (st : DetState) (s : ImageData) :
    (loadImage env.loadEnv s = none ∧ detectUIElements env st s = ([], st)) ∨
    (∃ img, loadImage env.loadEnv s = some img ∧
      detectUIElements env st s =
        (mergePost
          ((preferColor (detectColorRegions st.minArea (detMaxArea st img) env.colorContours)
              (env.edgeContours.filterMap (analyzeContour st.minArea (detMaxArea st img)))).1 ++
           (preferColor (detectColorRegions st.minArea (detMaxArea st img) env.colorContours)
              (env.edgeContours.filterMap (analyzeContour st.minArea (detMaxArea st img)))).2),
         { st with maxArea := some (detMaxArea st img) })) := by
  rcases hl : loadImage env.loadEnv s with _ | img
  · exact Or.inl ⟨rfl, by unfold detectUIElements; rw [hl]⟩
  · exact Or.inr ⟨img, rfl, by unfold detectUIElements; rw [hl]⟩

theorem mem_merged_area {mi : ℤ} {ma : ℚ} {ccs : List ColorContour} {ecs : List Contour}
    {e : UIElement}
    (h : e ∈ (preferColor (detectColorRegions mi ma ccs) (ecs.filterMap (analyzeContour mi ma))).1 ++
      (preferColor (detectColorRegions mi ma ccs) (ecs.filterMap (analyzeContour mi ma))).2) :
    e.area = e.width * e.height := by
  rcases List.mem_append.mp h with h1 | h1
  · rw [preferColor_fst] at h1
    obtain ⟨c, _, hc⟩ := List.mem_filterMap.mp h1
    obtain ⟨hw, hh, ha, _⟩ := analyzeColorContour_some hc
    rw [ha, hw, hh]
  · have h2 := (preferColor_snd _ _).subset h1
    obtain ⟨c, _, hc⟩ := List.mem_filterMap.mp h2
    obtain ⟨_, _, hw, hh, ha, _⟩ := analyzeContour_some hc
    rw [ha, hw, hh]

/-! ### Facts about the template matcher -/

theorem passesThr_iff (method : TMMethod) (thr s : ℚ) :
    passesThr method thr s = true ↔ thr ≤ rawConf method s := by
  cases method <;> simp [passesThr, rawConf] <;> constructor <;> intro h <;> linarith

theorem passesThr_eq_decide (method : TMMethod) (thr s : ℚ) :
    passesThr method thr s = decide (thr ≤ rawConf method s) := by
  rw [show decide (thr ≤ rawConf method s) = passesThr method thr s from ?_]
  rw [Bool.eq_iff_iff, decide_eq_true_eq, passesThr_iff]

theorem passesThr_mono {method : TMMethod} {t1 t2 s : ℚ} (h12 : t1 ≤ t2)
    (h : passesThr method t2 s = true) : passesThr method t1 s = true := by
  rw [passesThr_iff] at h ⊢
  linarith

theorem mem_positions {gw gh : ℕ} {p : ℕ × ℕ} :
    p ∈ positions gw gh ↔ p.1 < gw ∧ p.2 < gh := by
  obtain ⟨x, y⟩ := p
  simp only [positions, List.mem_flatMap, List.mem_range, List.mem_map]
  constructor
  · rintro ⟨y', hy', x', hx', h⟩
    rw [Prod.mk.injEq] at h
    obtain ⟨rfl, rfl⟩ := h
    exact ⟨hx', hy'⟩
  · rintro ⟨hx, hy⟩
    exact ⟨y, hy, x, hx, rfl⟩

theorem mem_candRecords {env : TMEnv} {method : TMMethod} {thr : ℚ} {W H nw nh : ℕ}
    {scale : ℚ} {m : MatchCand} (h : m ∈ candRecords env method thr W H nw nh scale) :
    m.width = nw ∧ m.height = nh ∧ m.x ≤ W - nw ∧ m.y ≤ H - nh ∧
    ∃ s, passesThr method thr s = true ∧ m.confidence = round3 (rawConf method s) := by
  obtain ⟨p, hp, hsome⟩ := List.mem_filterMap.mp h
  obtain ⟨hx, hy⟩ := mem_positions.mp hp
  split_ifs at hsome with hpass
  rw [Option.some.injEq] at hsome
  subst hsome
  exact ⟨rfl, rfl, Nat.lt_succ_iff.mp hx, Nat.lt_succ_iff.mp hy,
    env.score method nw nh p.1 p.2, hpass, rfl⟩

theorem mem_matchAtScale {env : TMEnv} {method : TMMethod} {thr : ℚ} {W H tw th : ℕ}
    {scale : ℚ} {m : MatchCand} (h : m ∈ matchAtScale env method thr W H tw th scale) :
    m.x + m.width ≤ W ∧ m.y + m.height ≤ H ∧
    ∃ s, passesThr method thr s = true ∧ m.confidence = round3 (rawConf method s) := by
  unfold matchAtScale at h
  split_ifs at h with g1 g2
  · exact absurd h (List.not_mem_nil m)
  · exact absurd h (List.not_mem_nil m)
  push_neg at g2
  have hnw : (⌊(tw : ℚ) * scale⌋).toNat ≤ W := Int.toNat_le.mpr g2.1
  have hnh : (⌊(th : ℚ) * scale⌋).toNat ≤ H := Int.toNat_le.mpr g2.2
  obtain ⟨hw, hh, hx, hy, s, hpass, hconf⟩ := mem_candRecords h
  refine ⟨?_, ?_, s, hpass, hconf⟩
  · rw [hw]; omega
  · rw [hh]; omega

theorem mem_nonMaxSuppression {ovThr : ℚ} {ms : List MatchCand} {m : MatchCand}
    (h : m ∈ nonMaxSuppression ovThr ms) : m ∈ ms := by
  unfold nonMaxSuppression at h
  split_ifs at h
  · exact absurd h (List.not_mem_nil m)
  · rcases greedyKeep_mem _ _ [] m h with h1 | h1
    · exact absurd h1 (List.not_mem_nil m)
    · exact mem_sortByDesc.mp h1

theorem nonMaxSuppression_pairwise (ovThr : ℚ) (ms : List MatchCand) :
    (nonMaxSuppression ovThr ms).Pairwise fun a b => nmsConflict ovThr a b = false := by
  unfold nonMaxSuppression
  split_ifs
  · exact List.Pairwise.nil
  · exact greedyKeep_pairwise _ (nmsConflict_comm ovThr) _ [] List.Pairwise.nil

theorem findMatchesCore_pairwise (env : TMEnv) (method : TMMethod) (thr : ℚ)
    (W H tw th : ℕ) (ms : Bool) :
    (findMatchesCore env method thr W H tw th ms).Pairwise
      fun a b => nmsConflict (3/10) a b = false := by
  unfold findMatchesCore
  exact (List.Perm.pairwise_iff
    (fun {a b} hab => by rw [nmsConflict_comm]; exact hab)
    (sortByDesc_perm _ _)).mpr (nonMaxSuppression_pairwise _ _)

theorem mem_findMatchesCore {env : TMEnv} {method : TMMethod} {thr : ℚ}
    {W H tw th : ℕ} {ms : Bool} {m : MatchCand}
    (h : m ∈ findMatchesCore env method thr W H tw th ms) :
    m.x + m.width ≤ W ∧ m.y + m.height ≤ H ∧
    ∃ s, passesThr method thr s = true ∧ m.confidence = round3 (rawConf method s) := by
  unfold findMatchesCore at h
  have hc := mem_nonMaxSuppression (mem_sortByDesc.mp h)
  split_ifs at hc
  · obtain ⟨scale, _, hms⟩ := List.mem_flatMap.mp hc
    exact mem_matchAtScale hms
  · exact mem_matchAtScale hc

/-! ### Threshold filtering structure, for the monotonicity analysis -/

theorem filterMap_ite {α β : Type} (p : α → Bool) (f : α → β) (l : List α) :
    (l.filterMap fun a => if p a then some (f a) else none) = (l.filter p).map f := by
  induction l with
  | nil => rfl
  | cons a l ih =>
    by_cases hpa : p a = true
    · simp [List.filterMap_cons, List.filter_cons, hpa, ih]
    · simp only [Bool.not_eq_true] at hpa
      simp [List.filterMap_cons, List.filter_cons, hpa, ih]

theorem candRecords_eq (env : TMEnv) (method : TMMethod) (thr : ℚ) (W H nw nh : ℕ)
    (scale : ℚ) :
    candRecords env method thr W H nw nh scale =
      ((positions (W - nw + 1) (H - nh + 1)).filter fun p =>
        passesThr method thr (env.score method nw nh p.1 p.2)).map fun p =>
          mkMatch p.1 p.2 nw nh
            (round3 (rawConf method (env.score method nw nh p.1 p.2))) (round2 scale) := by
  unfold candRecords
  exact filterMap_ite _ _ _

theorem candRecords_filter (env : TMEnv) (method : TMMethod) {t1 t2 : ℚ} (h12 : t1 ≤ t2)
    (W H nw nh : ℕ) (scale : ℚ)
    (hround : ∀ x y, round3 (rawConf method (env.score method nw nh x y)) =
      rawConf method (env.score method nw nh x y)) :
    (candRecords env method t1 W H nw nh scale).filter
        (fun m => decide (t2 ≤ m.confidence)) =
      candRecords env method t2 W H nw nh scale := by
  rw [candRecords_eq, candRecords_eq, List.filter_map, List.filter_filter]
  congr 1
  apply List.filter_congr
  intro p _
  simp only [Function.comp_apply]
  have hconf : (mkMatch p.1 p.2 nw nh
      (round3 (rawConf method (env.score method nw nh p.1 p.2))) (round2 scale)).confidence =
      round3 (rawConf method (env.score method nw nh p.1 p.2)) := rfl
  rw [hconf, hround p.1 p.2,
    show decide (t2 ≤ rawConf method (env.score method nw nh p.1 p.2)) =
      passesThr method t2 (env.score method nw nh p.1 p.2) from
    (passesThr_eq_decide method t2 _).symm]
  cases h2 : passesThr method t2 (env.score method nw nh p.1 p.2)
  · simp
  · simp [passesThr_mono h12 h2]

theorem matchAtScale_filter (env : TMEnv) (method : TMMethod) {t1 t2 : ℚ} (h12 : t1 ≤ t2)
    (W H tw th : ℕ) (scale : ℚ)
    (hround : ∀ nw nh x y, round3 (rawConf method (env.score method nw nh x y)) =
      rawConf method (env.score method nw nh x y)) :
    (matchAtScale env method t1 W H tw th scale).filter
        (fun m => decide (t2 ≤ m.confidence)) =
      matchAtScale env method t2 W H tw th scale := by
  unfold matchAtScale
  split_ifs
  · rfl
  · rfl
  · exact candRecords_filter env method h12 W H _ _ scale (hround _ _)

theorem filter_flatMap {α β : Type} (l : List α) (g : α → List β) (q : β → Bool) :
    (l.flatMap g).filter q = l.flatMap fun a => (g a).filter q := by
  induction l with
  | nil => rfl
  | cons a l ih => simp [List.flatMap_cons, List.filter_append, ih]

theorem nms_length_mono (ovThr : ℚ) (t2 : ℚ) (L1 : List MatchCand) :
    (nonMaxSuppression ovThr (L1.filter fun m => decide (t2 ≤ m.confidence))).length ≤
      (nonMaxSuppression ovThr L1).length := by
  by_cases h2 : (L1.filter fun m => decide (t2 ≤ m.confidence)).isEmpty
  · unfold nonMaxSuppression
    rw [if_pos h2]
    simp
  by_cases h1 : L1.isEmpty
  · rw [List.isEmpty_iff.mp h1] at h2
    exact absurd rfl h2
  unfold nonMaxSuppression
  rw [if_neg h2, if_neg h1]
  have hsplit := @sortByDesc_split MatchCand (fun m => m.confidence)
    (fun m => decide (t2 ≤ m.confidence)) t2 L1 (fun x _ => by simp)
  rw [hsplit, greedyKeep_append]
  exact greedyKeep_length_le _ _ _

theorem findMatchesCore_length_mono (env : TMEnv) (method : TMMethod)
    (W H tw th : ℕ) (ms : Bool) {t1 t2 : ℚ} (h12 : t1 ≤ t2)
    (hround : ∀ nw nh x y, round3 (rawConf method (env.score method nw nh x y)) =
      rawConf method (env.score method nw nh x y)) :
    (findMatchesCore env method t2 W H tw th ms).length ≤
      (findMatchesCore env method t1 W H tw th ms).length := by
  unfold findMatchesCore
  rw [sortByDesc_length, sortByDesc_length]
  cases ms
  · rw [if_neg (by simp), if_neg (by simp)]
    rw [← matchAtScale_filter env method h12 W H tw th 1 hround]
    exact nms_length_mono _ t2 _
  · rw [if_pos rfl, if_pos rfl]
    have hfn : (fun sc => (matchAtScale env method t1 W H tw th sc).filter
        fun m => decide (t2 ≤ m.confidence)) = matchAtScale env method t2 W H tw th :=
      funext fun sc => matchAtScale_filter env method h12 W H tw th sc hround
    rw [← hfn, ← filter_flatMap]
    exact nms_length_mono _ t2 _

/-! ### The claims -/

/-- Claim C1, counterexample: with threshold 0.7004 (inside [0,1]) a window
scoring exactly 0.7004 is kept, but its stored confidence is rounded to 3
decimals (0.7), which is strictly below the threshold.  So not every
returned MatchCandidate has confidence ≥ threshold. -/
theorem C1_counterexample :
    (0 : ℚ) ≤ 7004/10000 ∧ (7004/10000 : ℚ) ≤ 1 ∧
    ∃ m ∈ findMatches c1Env ['s'] ['t'] (7004/10000) TMMethod.ccoeff false,
      m.confidence < 7004/10000 := by with_unfolding_all decide

/-- Claim C1, amended: every MatchCandidate returned by find_matches lies
fully inside the screenshot's bounds, and its confidence is the
3-decimal rounding of a raw (SQDIFF-inverted) score that is ≥ the
threshold — hence the stored confidence is ≥ threshold − 1/2000, though
rounding can push it below the threshold itself. -/
theorem C1_amended (env : TMEnv) (sd td : ImageData) (thr : ℚ) (method : TMMethod)
    (ms : Bool) (img : Img) (hload : loadImage env.loadEnv sd = some img) :
    ∀ m ∈ findMatches env sd td thr method ms,
      m.x + m.width ≤ img.W ∧ m.y + m.height ≤ img.H ∧
      thr - 1/2000 ≤ m.confidence ∧ ∃ r, thr ≤ r ∧ m.confidence = round3 r := by
  intro m hm
  unfold findMatches at hm
  rw [hload] at hm
  rcases htd : loadImage env.loadEnv td with _ | tp
  · rw [htd] at hm
    exact absurd hm (List.not_mem_nil m)
  · rw [htd] at hm
    obtain ⟨h1, h2, s, hpass, hconf⟩ := mem_findMatchesCore hm
    have hr : thr ≤ rawConf method s := (passesThr_iff method thr s).mp hpass
    refine ⟨h1, h2, ?_, rawConf method s, hr, hconf⟩
    have h3 := round3_ge (rawConf method s)
    rw [hconf]
    linarith

/-- Witness for C1_amended at a concrete run with a single 5×5 match. -/
theorem C1_amended_witness :
    loadImage w1Env.loadEnv ['s'] = some ⟨5, 5⟩ ∧
    w1M ∈ findMatches w1Env ['s'] ['t'] (7/10) TMMethod.ccoeff false ∧
    (w1M.x + w1M.width ≤ 5 ∧ w1M.y + w1M.height ≤ 5 ∧
      (7:ℚ)/10 - 1/2000 ≤ w1M.confidence ∧
      ∃ r, (7:ℚ)/10 ≤ r ∧ w1M.confidence = round3 r) :=
  ⟨by with_unfolding_all decide, by with_unfolding_all decide,
    C1_amended w1Env ['s'] ['t'] (7/10) TMMethod.ccoeff false ⟨5, 5⟩ (by with_unfolding_all decide)
      w1M (by with_unfolding_all decide)⟩

/-- Claim C2: in every find_matches result no two MatchCandidates have IoU
above 0.3, and in every detect_ui_elements result no two UIElements have
IoU above 0.7 (the duplicate-removal pass bounds the overlap by 70% of the
smaller area, which bounds the IoU by 0.7). -/
theorem C2_iou_suppression :
    (∀ (env : TMEnv) (sd td : ImageData) (thr : ℚ) (method : TMMethod) (ms : Bool),
      (findMatches env sd td thr method ms).Pairwise fun a b =>
        calculateIoU a.box b.box ≤ 3/10 ∧ calculateIoU b.box a.box ≤ 3/10) ∧
    (∀ (env : DetEnv) (st : DetState) (s : ImageData),
      ((detectUIElements env st s).1).Pairwise fun a b =>
        calculateIoU a.box b.box ≤ 7/10 ∧ calculateIoU b.box a.box ≤ 7/10) := by
  constructor
  · intro env sd td thr method ms
    unfold findMatches
    rcases loadImage env.loadEnv sd with _ | sc
    · exact List.Pairwise.nil
    rcases loadImage env.loadEnv td with _ | tp
    · exact List.Pairwise.nil
    refine (findMatchesCore_pairwise env method thr sc.W sc.H tp.W tp.H ms).imp ?_
    intro a b hab
    have h1 : calculateIoU a.box b.box ≤ 3/10 :=
      not_lt.mp (of_decide_eq_false hab)
    have hab' : nmsConflict (3/10) b a = false := by
      rw [nmsConflict_comm]
      exact hab
    have h2 : calculateIoU b.box a.box ≤ 3/10 :=
      not_lt.mp (of_decide_eq_false hab')
    exact ⟨h1, h2⟩
  · intro env st s
    rcases detectUIElements_cases env st s with ⟨_, heq⟩ | ⟨img, hl, heq⟩
    · rw [heq]
      exact List.Pairwise.nil
    · rw [heq]
      refine (mergePost_pairwise _).imp_of_mem ?_
      intro a b ha hb hab
      have haarea := mem_merged_area (mem_mergePost_orig ha)
      have hbarea := mem_merged_area (mem_mergePost_orig hb)
      refine ⟨iou_le_of_dupPred a b haarea hbarea hab,
        iou_le_of_dupPred b a hbarea haarea ?_⟩
      rw [dupPred_comm]
      exact hab

/-- Claim C3, counterexample: an input that base64-decodes but is not a
valid image makes cv2.imdecode return None without raising, so the loader
returns None without ever falling back to the path — even though the same
input names a readable image file. -/
theorem C3_counterexample :
    b64Attempt c3LoadEnv ['a', 'b'] = some none ∧
    loadImage c3LoadEnv ['a', 'b'] = none ∧
    c3LoadEnv.imread ['a', 'b'] = some ⟨8, 8⟩ := by with_unfolding_all decide

/-- Claim C3, amended: the loader falls back to the path exactly when the
base64 branch raises; when base64 decoding succeeds, the result is
cv2.imdecode's result with no path fallback; and whenever loading fails,
find_matches and detect_ui_elements return an empty list instead of
raising. -/
theorem C3_amended :
    (∀ (env : LoadEnv) (s : ImageData), b64Attempt env s = none →
      loadImage env s = env.imread s) ∧
    (∀ (env : LoadEnv) (s payload : ImageData) (bytes : List ℕ),
      dataUrlStrip s = some payload → env.b64decode payload = some bytes →
      loadImage env s = env.imdecode bytes) ∧
    (∀ (env : TMEnv) (sd td : ImageData) (thr : ℚ) (method : TMMethod) (ms : Bool),
      loadImage env.loadEnv sd = none → findMatches env sd td thr method ms = []) ∧
    (∀ (env : TMEnv) (sd td : ImageData) (thr : ℚ) (method : TMMethod) (ms : Bool),
      loadImage env.loadEnv td = none → findMatches env sd td thr method ms = []) ∧
    (∀ (env : DetEnv) (st : DetState) (s : ImageData),
      loadImage env.loadEnv s = none → (detectUIElements env st s).1 = []) := by
  refine ⟨?_, ?_, ?_, ?_, ?_⟩
  · intro env s h
    unfold loadImage
    rw [h]
  · intro env s payload bytes h1 h2
    have hb : b64Attempt env s = some (env.imdecode bytes) := by
      unfold b64Attempt
      rw [h1]
      show (match env.b64decode payload with
        | none => none
        | some bs => some (env.imdecode bs)) = some (env.imdecode bytes)
      rw [h2]
    unfold loadImage
    rw [hb]
  · intro env sd td thr method ms h
    unfold findMatches
    rw [h]
  · intro env sd td thr method ms h
    unfold findMatches
    rcases hsd : loadImage env.loadEnv sd with _ | sc
    · rfl
    · rw [h]
  · intro env st s h
    unfold detectUIElements
    rw [h]

/-- Witness for C3_amended: a raising base64 branch falls back to the path,
and an input that fails both ways yields empty results from both
pipelines. -/
theorem C3_amended_witness :
    (loadImage w3LoadEnv ['p'] = w3LoadEnv.imread ['p'] ∧
      loadImage w3LoadEnv ['p'] = some ⟨3, 4⟩) ∧
    findMatches w3TMEnv ['q'] ['p'] (7/10) TMMethod.ccoeff true = [] ∧
    (detectUIElements w3DetEnv ⟨400, none⟩ ['q']).1 = [] :=
  ⟨⟨C3_amended.1 w3LoadEnv ['p'] (by with_unfolding_all decide), by with_unfolding_all decide⟩,
    C3_amended.2.2.1 w3TMEnv ['q'] ['p'] (7/10) TMMethod.ccoeff true (by with_unfolding_all decide),
    C3_amended.2.2.2.2 w3DetEnv ⟨400, none⟩ ['q'] (by with_unfolding_all decide)⟩

/-- Claim C4 (code bug): detect_ui_elements mutates self.max_area on the
first call with max_area unset.  After a call on a 100×100 image the stored
bound is 5000, and a second call on a 200×200 image filters with the stale
5000 instead of its own 20000: a 15000-pixel element is dropped, while the
same call on a fresh detector returns it. -/
theorem C4_stale_max_area :
    (detectUIElements c4EnvA ⟨400, none⟩ ['a']).2 = ⟨400, some 5000⟩ ∧
    (detectUIElements c4EnvB (detectUIElements c4EnvA ⟨400, none⟩ ['a']).2 ['b']).1 = [] ∧
    (detectUIElements c4EnvB ⟨400, none⟩ ['b']).1 = [c4Elem] := by
  have hmaxA : detMaxArea ⟨400, none⟩ ⟨100, 100⟩ = 5000 := by
    show ((100 * 100 : ℕ) : ℚ) * (1/2) = 5000
    norm_num
  have hmaxB : detMaxArea ⟨400, none⟩ ⟨200, 200⟩ = 20000 := by
    show ((200 * 200 : ℕ) : ℚ) * (1/2) = 20000
    norm_num
  have hrej : analyzeContour 400 5000 c4Contour = none := by
    unfold analyzeContour
    rw [if_pos]
    right
    show (5000 : ℚ) < ((c4Contour.w * c4Contour.h : ℕ) : ℚ)
    norm_num [c4Contour]
  have hacc : analyzeContour 400 20000 c4Contour = some c4Elem := by
    unfold analyzeContour
    rw [if_neg, if_neg]
    · simp only [c4Contour]
      norm_num [c4Elem, round2, halfEven, aspectOf, UIElement.mk.injEq]
    · show ¬ (aspectOf c4Contour.w c4Contour.h < 1/10 ∨ 10 < aspectOf c4Contour.w c4Contour.h)
      push_neg
      constructor <;> norm_num [aspectOf, c4Contour]
    · show ¬ ((c4Contour.w * c4Contour.h : ℤ) < 400 ∨
        (20000 : ℚ) < ((c4Contour.w * c4Contour.h : ℕ) : ℚ))
      push_neg
      constructor <;> norm_num [c4Contour]
  have h1 : (detectUIElements c4EnvA ⟨400, none⟩ ['a']).2 = ⟨400, some 5000⟩ := by
    show ({ minArea := 400, maxArea := some (detMaxArea ⟨400, none⟩ ⟨100, 100⟩) } :
      DetState) = ⟨400, some 5000⟩
    rw [hmaxA]
  refine ⟨h1, ?_, ?_⟩
  · rw [h1]
    show mergePost
      ((preferColor (detectColorRegions 400 (detMaxArea ⟨400, some 5000⟩ ⟨200, 200⟩) [])
          ([c4Contour].filterMap (analyzeContour 400 (detMaxArea ⟨400, some 5000⟩ ⟨200, 200⟩)))).1 ++
        (preferColor (detectColorRegions 400 (detMaxArea ⟨400, some 5000⟩ ⟨200, 200⟩) [])
          ([c4Contour].filterMap (analyzeContour 400 (detMaxArea ⟨400, some 5000⟩ ⟨200, 200⟩)))).2) = []
    rw [show detMaxArea ⟨400, some 5000⟩ ⟨200, 200⟩ = 5000 from rfl,
      show [c4Contour].filterMap (analyzeContour 400 5000) = [] from by
        simp [List.filterMap_cons, hrej]]
    rfl
  · show mergePost
      ((preferColor (detectColorRegions 400 (detMaxArea ⟨400, none⟩ ⟨200, 200⟩) [])
          ([c4Contour].filterMap (analyzeContour 400 (detMaxArea ⟨400, none⟩ ⟨200, 200⟩)))).1 ++
        (preferColor (detectColorRegions 400 (detMaxArea ⟨400, none⟩ ⟨200, 200⟩) [])
          ([c4Contour].filterMap (analyzeContour 400 (detMaxArea ⟨400, none⟩ ⟨200, 200⟩)))).2) = [c4Elem]
    rw [hmaxB,
      show [c4Contour].filterMap (analyzeContour 400 20000) = [c4Elem] from by
        simp [List.filterMap_cons, hacc]]
    have hself : nestedIn c4Elem c4Elem = false := by with_unfolding_all decide
    show (sortByDesc (fun e : UIElement => (e.area : ℚ))
      (removeDuplicates (removeNested [c4Elem]))).take 100 = [c4Elem]
    rw [show removeNested [c4Elem] = [c4Elem] from by simp [removeNested, hself]]
    rfl

/-- Claim C5, counterexample: raising the threshold from 0.5 to 0.9
increases the match count from 1 to 2.  At 0.5 the position scoring 0.8996
rounds to confidence 0.9, is sorted (stably) in front of the two 0.9+
positions and suppresses both; at 0.9 it is filtered out on its raw score
and the two survivors no longer overlap each other. -/
theorem C5_counterexample :
    (findMatches c5Env ['s'] ['t'] (1/2) TMMethod.ccoeff false).length = 1 ∧
    (findMatches c5Env ['s'] ['t'] (9/10) TMMethod.ccoeff false).length = 2 := by with_unfolding_all decide

/-- Claim C5, amended: when every candidate confidence is already exact at
3 decimals (rounding changes no score), the number of matches returned by
find_matches is monotonically non-increasing in the threshold.  The
counterexample shows the unrestricted claim fails because candidates are
filtered on raw scores but sorted on rounded confidences. -/
theorem C5_amended (env : TMEnv) (sd td : ImageData) (method : TMMethod) (ms : Bool)
    {t1 t2 : ℚ} (h12 : t1 ≤ t2)
    (hround : ∀ nw nh x y, round3 (rawConf method (env.score method nw nh x y)) =
      rawConf method (env.score method nw nh x y)) :
    (findMatches env sd td t2 method ms).length ≤
      (findMatches env sd td t1 method ms).length := by
  unfold findMatches
  rcases hsd : loadImage env.loadEnv sd with _ | sc
  · exact Nat.le.refl
  rcases htd : loadImage env.loadEnv td with _ | tp
  · exact Nat.le.refl
  exact findMatchesCore_length_mono env method sc.W sc.H tp.W tp.H ms h12 hround

/-- Witness for C5_amended on an all-zero score grid. -/
theorem C5_amended_witness :
    ((1:ℚ)/2 ≤ 9/10) ∧
    (findMatches w5Env ['s'] ['t'] (9/10) TMMethod.ccoeff true).length ≤
      (findMatches w5Env ['s'] ['t'] (1/2) TMMethod.ccoeff true).length :=
  ⟨by norm_num,
    C5_amended w5Env ['s'] ['t'] TMMethod.ccoeff true (by norm_num)
      (fun _ _ _ _ =>
        (by with_unfolding_all decide :
          round3 (rawConf TMMethod.ccoeff 0) = rawConf TMMethod.ccoeff 0))⟩

/-- Claim C6: the merge post-processing stage (nesting removal, duplicate
removal, sort by area descending, truncation to 100) is idempotent — applied
to its own output it removes nothing and returns the same list. -/
theorem C6_merge_idempotent (es : List UIElement) :
    mergePost (mergePost es) = mergePost es := by
  have hmem : ∀ e ∈ mergePost es, ∀ b ∈ mergePost es, nestedIn e b = false := by
    intro e he b hb
    exact (mem_removeNested (mem_removeDuplicates (mem_mergePost he))).2 b
      (mem_mergePost_orig hb)
  have hnest : removeNested (mergePost es) = mergePost es := by
    unfold removeNested
    rw [List.filter_eq_self]
    intro a ha
    rw [forall_any_false fun b hb => hmem a ha b hb]
    rfl
  have hdup : removeDuplicates (mergePost es) = mergePost es := by
    have hp : (mergePost es).Pairwise fun a b => dupPred b a = false :=
      (mergePost_pairwise es).imp fun {a b} hab => by rw [dupPred_comm]; exact hab
    unfold removeDuplicates
    rw [greedyKeep_eq_append dupPred (mergePost es) []
      (fun k hk => absurd hk (List.not_mem_nil k)) hp]
    rfl
  have hsorted : sortByDesc (fun e : UIElement => (e.area : ℚ)) (mergePost es) =
      mergePost es :=
    sortByDesc_eq_self ((sortByDesc_pairwise _ _).sublist (List.take_sublist _ _))
  have hlen : (mergePost es).length ≤ 100 := by
    unfold mergePost
    exact List.length_take_le _ _
  show (sortByDesc (fun e : UIElement => (e.area : ℚ))
    (removeDuplicates (removeNested (mergePost es)))).take 100 = mergePost es
  rw [hnest, hdup, hsorted]
  exact List.take_of_length_le hlen

/-- Claim C7: in every detect_ui_elements result, no surviving element is
fully contained in another surviving element's box while being less than
90% of its area. -/
theorem C7_no_nested_survivors (env : DetEnv) (st : DetState) (s : ImageData)
    (a b : UIElement) (ha : a ∈ (detectUIElements env st s).1)
    (hb : b ∈ (detectUIElements env st s).1) : nestedIn a b = false := by
  rcases detectUIElements_cases env st s with ⟨hl, heq⟩ | ⟨img, hl, heq⟩
  · rw [heq] at ha
    exact absurd ha (List.not_mem_nil a)
  · rw [heq] at ha hb
    exact (mem_removeNested (mem_removeDuplicates (mem_mergePost ha))).2 b
      (mem_mergePost_orig hb)

/-- Witness for C7 on a run whose result is a single 30×30 rectangle. -/
theorem C7_witness :
    w7Elem ∈ (detectUIElements w7Env ⟨400, none⟩ ['x']).1 ∧
    nestedIn w7Elem w7Elem = false := by
  have hmax : detMaxArea ⟨400, none⟩ ⟨100, 100⟩ = 5000 := by
    show ((100 * 100 : ℕ) : ℚ) * (1/2) = 5000
    norm_num
  have hacc : analyzeContour 400 5000 w7Contour = some w7Elem := by
    unfold analyzeContour
    rw [if_neg, if_neg]
    · simp only [w7Contour]
      norm_num [w7Elem, round2, halfEven, UIElement.mk.injEq]
    · show ¬ (aspectOf w7Contour.w w7Contour.h < 1/10 ∨ 10 < aspectOf w7Contour.w w7Contour.h)
      push_neg
      constructor <;> norm_num [aspectOf, w7Contour]
    · show ¬ ((w7Contour.w * w7Contour.h : ℤ) < 400 ∨
        (5000 : ℚ) < ((w7Contour.w * w7Contour.h : ℕ) : ℚ))
      push_neg
      constructor <;> norm_num [w7Contour]
  have hself : nestedIn w7Elem w7Elem = false := by with_unfolding_all decide
  have hout : (detectUIElements w7Env ⟨400, none⟩ ['x']).1 = [w7Elem] := by
    show mergePost
      ((preferColor (detectColorRegions 400 (detMaxArea ⟨400, none⟩ ⟨100, 100⟩) [])
          ([w7Contour].filterMap (analyzeContour 400 (detMaxArea ⟨400, none⟩ ⟨100, 100⟩)))).1 ++
        (preferColor (detectColorRegions 400 (detMaxArea ⟨400, none⟩ ⟨100, 100⟩) [])
          ([w7Contour].filterMap (analyzeContour 400 (detMaxArea ⟨400, none⟩ ⟨100, 100⟩)))).2) =
      [w7Elem]
    rw [hmax,
      show [w7Contour].filterMap (analyzeContour 400 5000) = [w7Elem] from by
        simp [List.filterMap_cons, hacc]]
    show (sortByDesc (fun e : UIElement => (e.area : ℚ))
      (removeDuplicates (removeNested [w7Elem]))).take 100 = [w7Elem]
    rw [show removeNested [w7Elem] = [w7Elem] from by simp [removeNested, hself]]
    rfl
  have hmem : w7Elem ∈ (detectUIElements w7Env ⟨400, none⟩ ['x']).1 := by
    rw [hout]
    exact List.mem_cons_self _ _
  exact ⟨hmem, C7_no_nested_survivors w7Env ⟨400, none⟩ ['x'] w7Elem w7Elem hmem hmem⟩

/-- Claim C8: for every contour that passes the area and aspect filters, the
shape classifier applies its rules top-down with first match winning —
4 vertices gives a rectangle at 0.8 (even when the circularity is high),
then circularity > 0.7 gives a circle at 0.9, then fewer than 10 vertices a
polygon at 0.6, otherwise unknown at 0.5 — and the element records the
contour's vertex count. -/
theorem C8_decision_table (minArea : ℤ) (maxArea : ℚ) (c : Contour) (e : UIElement)
    (h : analyzeContour minArea maxArea c = some e) :
    e.vertices = c.vertices ∧
    (c.vertices = 4 → e.type = "rectangle" ∧ e.confidence = 8/10) ∧
    (c.vertices ≠ 4 → 7/10 < circularityOf c → e.type = "circle" ∧ e.confidence = 9/10) ∧
    (c.vertices ≠ 4 → ¬ 7/10 < circularityOf c → c.vertices < 10 →
      e.type = "polygon" ∧ e.confidence = 6/10) ∧
    (c.vertices ≠ 4 → ¬ 7/10 < circularityOf c → ¬ c.vertices < 10 →
      e.type = "unknown" ∧ e.confidence = 1/2) := by
  obtain ⟨ht, hc⟩ := analyzeContour_type h
  have hv := (analyzeContour_some h).2.2.2.2.2
  refine ⟨hv, ?_, ?_, ?_, ?_⟩
  · intro h4
    rw [ht, hc, if_pos h4, if_pos h4]
    exact ⟨rfl, by with_unfolding_all decide⟩
  · intro h4 hcirc
    rw [ht, hc, if_neg h4, if_neg h4, if_pos hcirc, if_pos hcirc]
    exact ⟨rfl, by with_unfolding_all decide⟩
  · intro h4 hcirc h10
    rw [ht, hc, if_neg h4, if_neg h4, if_neg hcirc, if_neg hcirc, if_pos h10, if_pos h10]
    exact ⟨rfl, by with_unfolding_all decide⟩
  · intro h4 hcirc h10
    rw [ht, hc, if_neg h4, if_neg h4, if_neg hcirc, if_neg hcirc, if_neg h10, if_neg h10]
    exact ⟨rfl, by with_unfolding_all decide⟩

/-- Witness for C8 on a 40×20 contour with 4 vertices, classified as a
rectangle with confidence 0.8. -/
theorem C8_witness :
    analyzeContour 400 5000 w8Contour = some w8Elem ∧
    (w8Elem.type = "rectangle" ∧ w8Elem.confidence = 8/10) := by
  have h : analyzeContour 400 5000 w8Contour = some w8Elem := by
    unfold analyzeContour
    rw [if_neg, if_neg]
    · simp only [w8Contour]
      norm_num [w8Elem, round2, halfEven, UIElement.mk.injEq]
    · show ¬ (aspectOf w8Contour.w w8Contour.h < 1/10 ∨ 10 < aspectOf w8Contour.w w8Contour.h)
      push_neg
      constructor <;> norm_num [aspectOf, w8Contour]
    · show ¬ ((w8Contour.w * w8Contour.h : ℤ) < 400 ∨
        (5000 : ℚ) < ((w8Contour.w * w8Contour.h : ℕ) : ℚ))
      push_neg
      constructor <;> norm_num [w8Contour]
  exact ⟨h, (C8_decision_table 400 5000 w8Contour w8Elem h).2.1 rfl⟩

/-- Claim C9, counterexample: a single-point contour has zero perimeter
(and a 1×1 bounding box), yet with min_area = 1 it passes every filter and
_analyze_contour returns a polygon element — it is not treated as a
non-match. -/
theorem C9_counterexample :
    c9Contour.perimeter = 0 ∧ analyzeContour 1 5000 c9Contour = some c9Elem := by
  refine ⟨rfl, ?_⟩
  unfold analyzeContour
  rw [if_neg, if_neg]
  · simp only [c9Contour]
    norm_num [c9Elem, round2, halfEven, circularityOf, UIElement.mk.injEq]
  · show ¬ (aspectOf c9Contour.w c9Contour.h < 1/10 ∨ 10 < aspectOf c9Contour.w c9Contour.h)
    push_neg
    constructor <;> norm_num [aspectOf, c9Contour]
  · show ¬ ((c9Contour.w * c9Contour.h : ℤ) < 1 ∨
      (5000 : ℚ) < ((c9Contour.w * c9Contour.h : ℕ) : ℚ))
    push_neg
    constructor <;> norm_num [c9Contour]

/-- Claim C9, amended: degenerate geometry never causes a division — the
aspect ratio of a zero-height box and the circularity of a zero-perimeter
contour are both computed as 0.  A zero-height contour is always rejected
(by both the edge and the color analyzers), and a zero-perimeter contour is
never classified as a circle; but, as the counterexample shows, a
zero-perimeter contour can still produce a (polygon) element when min_area
admits its 1-pixel box. -/
theorem C9_amended :
    (∀ (minArea : ℤ) (maxArea : ℚ) (c : Contour), c.h = 0 →
      aspectOf c.w c.h = 0 ∧ analyzeContour minArea maxArea c = none) ∧
    (∀ (minArea : ℤ) (maxArea : ℚ) (c : Contour), c.perimeter = 0 →
      circularityOf c = 0 ∧
        ∀ e, analyzeContour minArea maxArea c = some e → e.type ≠ "circle") ∧
    (∀ (minArea : ℤ) (maxArea : ℚ) (c : ColorContour), c.h = 0 →
      aspectOf c.w c.h = 0 ∧ analyzeColorContour minArea maxArea c = none) := by
  refine ⟨?_, ?_, ?_⟩
  · intro mi ma c hc
    have haspect : aspectOf c.w c.h = 0 := by rw [hc]; simp [aspectOf]
    refine ⟨haspect, ?_⟩
    unfold analyzeContour
    split_ifs with g1 g2
    · rfl
    · rfl
    · exact absurd (Or.inl (by rw [haspect]; norm_num)) g2
  · intro mi ma c hc
    have hcirc : circularityOf c = 0 := by
      unfold circularityOf
      rw [hc]
      simp
    refine ⟨hcirc, ?_⟩
    intro e he
    have ht := (analyzeContour_type he).1
    rw [hcirc] at ht
    rw [ht]
    split_ifs with h4 h7 h10
    · decide
    · exfalso
      norm_num at h7
    · decide
    · decide
  · intro mi ma c hc
    have haspect : aspectOf c.w c.h = 0 := by rw [hc]; simp [aspectOf]
    refine ⟨haspect, ?_⟩
    unfold analyzeColorContour
    have hcond : ((c.w * c.h : ℕ) : ℚ) < max 200 ((mi : ℚ) * (1/2)) ∨
        ma < ((c.w * c.h : ℕ) : ℚ) := by
      left
      rw [hc]
      simp only [Nat.mul_zero, Nat.cast_zero]
      exact lt_of_lt_of_le (by norm_num) (le_max_left 200 _)
    rw [if_pos hcond]

/-- Witness for C9_amended: a zero-height contour is rejected, and a
zero-perimeter contour has circularity 0 and is not classified as a
circle. -/
theorem C9_amended_witness :
    (aspectOf w9FlatContour.w w9FlatContour.h = 0 ∧
      analyzeContour 400 5000 w9FlatContour = none) ∧
    (circularityOf w9PtContour = 0 ∧ w9PtElem.type ≠ "circle") := by
  have hpt : analyzeContour 1 5000 w9PtContour = some w9PtElem := by
    unfold analyzeContour
    rw [if_neg, if_neg]
    · simp only [w9PtContour]
      norm_num [w9PtElem, round2, halfEven, circularityOf, UIElement.mk.injEq]
    · show ¬ (aspectOf w9PtContour.w w9PtContour.h < 1/10 ∨
        10 < aspectOf w9PtContour.w w9PtContour.h)
      push_neg
      constructor <;> norm_num [aspectOf, w9PtContour]
    · show ¬ ((w9PtContour.w * w9PtContour.h : ℤ) < 1 ∨
        (5000 : ℚ) < ((w9PtContour.w * w9PtContour.h : ℕ) : ℚ))
      push_neg
      constructor <;> norm_num [w9PtContour]
  exact ⟨C9_amended.1 400 5000 w9FlatContour rfl,
    ⟨(C9_amended.2.1 1 5000 w9PtContour rfl).1,
     (C9_amended.2.1 1 5000 w9PtContour rfl).2 w9PtElem hpt⟩⟩

/-- Claim C10: every element produced by the color-region detector has its
vertices field hardcoded to 4 and a confidence in [0.7, 0.95]. -/
theorem C10_color_region_elements (minArea : ℤ) (maxArea : ℚ) (cs : List ColorContour)
    (e : UIElement) (h : e ∈ detectColorRegions minArea maxArea cs) :
    e.vertices = 4 ∧ 7/10 ≤ e.confidence ∧ e.confidence ≤ 19/20 := by
  obtain ⟨c, _, hc⟩ := List.mem_filterMap.mp h
  obtain ⟨_, _, _, hv, hs, hval, hconf⟩ := analyzeColorContour_some hc
  obtain ⟨hlo, hhi⟩ := colorConf_bounds hs hval
  rw [hconf]
  exact ⟨hv, hlo, hhi⟩

/-- Witness for C10 on a saturated green 20×20 region. -/
theorem C10_witness :
    w10Elem ∈ detectColorRegions 400 5000 [w10CC] ∧
    (w10Elem.vertices = 4 ∧ (7:ℚ)/10 ≤ w10Elem.confidence ∧
      w10Elem.confidence ≤ 19/20) := by
  have hcc : analyzeColorContour 400 5000 w10CC = some w10Elem := by
    unfold analyzeColorContour
    rw [if_neg, if_neg, if_neg, if_neg]
    · simp only [w10CC]
      norm_num [w10Elem, round2, halfEven, colorNameFromHue, min_def, UIElement.mk.injEq]
      rfl
    · show ¬ (w10CC.meanS < 50 ∨ w10CC.meanV < 40)
      push_neg
      constructor <;> norm_num [w10CC]
    · show ¬ (w10CC.roiEmpty = true)
      simp [w10CC]
    · show ¬ (aspectOf w10CC.w w10CC.h < 1/20 ∨ 15 < aspectOf w10CC.w w10CC.h)
      push_neg
      constructor <;> norm_num [aspectOf, w10CC]
    · show ¬ (((w10CC.w * w10CC.h : ℕ) : ℚ) < max 200 (((400 : ℤ) : ℚ) * (1/2)) ∨
        (5000 : ℚ) < ((w10CC.w * w10CC.h : ℕ) : ℚ))
      push_neg
      constructor
      · norm_num [w10CC, max_def]
      · norm_num [w10CC]
  have hmem : w10Elem ∈ detectColorRegions 400 5000 [w10CC] := by
    unfold detectColorRegions
    simp [List.filterMap_cons, hcc]
  exact ⟨hmem, C10_color_region_elements 400 5000 [w10CC] w10Elem hmem⟩
